import Mathlib

/-!
Shallow embedding of the tool-routing and confirmed-execution engine of the
basicsHalo repository: `src/agent/mcp_router.py` (McpToolRouter, transports,
discovery, find_tools) and `src/agent/confirm_then_execute.py`
(ConfirmThenExecute: validation, confirmation, filler speech, execution
history).  External collaborators (speech, action naming, summarising,
argument hashing) are passed in as opaque function parameters, exactly as the
Python code receives them as injected callables; asynchronous effects are
modelled by explicit oracles (the yes/no answer, the tool-call outcome) and an
event trace.
-/

/-- Single-quote character, used inside user-facing message strings. -/
def squote : String := String.singleton (Char.ofNat 39)

/-- Whether `needle` occurs as a contiguous segment of `hay`. -/
def isSegmentOf (needle : List Char) : List Char → Bool
  | [] => needle.isEmpty
  | c :: cs => needle.isPrefixOf (c :: cs) || isSegmentOf needle cs

/-- Python `needle in hay` substring test. -/
def strContains (hay needle : String) : Bool :=
  isSegmentOf needle.data hay.data

/-- Python `str.lower()` (ASCII, as in `Char.toLower`). -/
def lowerStr (s : String) : String := ⟨s.data.map Char.toLower⟩

/-- Whether `pre` is an initial segment of `s`. -/
def strStarts (s pre : String) : Bool := pre.data.isPrefixOf s.data

/-- Splitting a character list at every separator (separators dropped,
empty pieces kept, as Python `str.split(sep)` would before filtering). -/
def splitAccum (p : Char → Bool) : List Char → List Char → List (List Char)
  | [], acc => [acc.reverse]
  | c :: cs, acc =>
    if p c then acc.reverse :: splitAccum p cs []
    else splitAccum p cs (c :: acc)

/-! ## Path validation (`ConfirmThenExecute._validate_path` / `_validate_arguments`) -/

/-- `pathlib.Path(s).expanduser()`: a leading bare tilde is replaced by the
home directory (modelled for the `~` / `~/...` forms used by the policy). -/
def expandUser (home s : String) : String :=
  if s = "~" then home
  else if strStarts s "~/" then home ++ ⟨s.data.drop 1⟩
  else s

/-- `Path.resolve()` modelled lexically: split on `/`, drop empty and `.`
components, apply `..` by removing the last component (the parent of the

root is the root), starting from `cwd` for relative paths. -/
def resolveComps (cwd : List String) (s : String) : List String :=
  let parts : List String :=
    ((splitAccum (fun c => c = '/') s.data []).map
      (fun cs => (⟨cs⟩ : String))).filter (fun c => !c.isEmpty && c ≠ ".")
  let base := if strStarts s "/" then [] else cwd
  parts.foldl (fun acc c => if c = ".." then acc.dropLast else acc ++ [c]) base

/-- Policy fields read by ConfirmThenExecute (`self.policy`), with the
Python `dict.get` defaults already applied at construction. -/
structure Policy where
  allowed_roots : List String
  require_confirmation : Bool
  confirm_timeout_sec : Nat
  tool_timeout_sec : Nat
deriving Repr, DecidableEq

/-- `ConfirmThenExecute._validate_path`: with an empty allow-list every path
is accepted; otherwise the expanded, resolved path must have some expanded,
resolved allowed root as a component-wise initial segment
(`path.resolve().relative_to(root.resolve())` succeeding). -/
def validate_path (pol : Policy) (home : String) (cwd : List String)
    (path : String) : Bool :=
  if pol.allowed_roots.isEmpty then true
  else pol.allowed_roots.any (fun root =>
    (resolveComps cwd (expandUser home root)).isPrefixOf
      (resolveComps cwd (expandUser home path)))

/-- Argument values: strings (the only values path validation inspects) or
any non-string value, which validation passes through. -/
inductive ArgVal where
  | str (s : String)
  | other
deriving Repr, DecidableEq

/-- A tool-call argument dict, keys unique as in a Python dict. -/
abbrev Args := List (String × ArgVal)

/-- String value of `args[k]` when present and a string. -/
def lookupStr (args : Args) (k : String) : Option String :=
  match args.lookup k with
  | some (.str s) => some s
  | _ => none

/-- The fixed path-like argument keys scanned by `_validate_arguments`. -/
def path_keys : List String :=
  ["path", "file", "directory", "target", "source", "dest", "destination"]

/-- The validation failure message, naming the offending path. -/
def pathErrMsg (v : String) : String :=
  "The path " ++ squote ++ v ++ squote ++ " is not in an allowed directory."

/-- Inner loop of `_validate_arguments` over the fixed key list. -/
def validateKeys (pol : Policy) (home : String) (cwd : List String)
    (args : Args) : List String → Option String
  | [] => none
  | k :: ks =>
    match lookupStr args k with
    | some v =>
      if validate_path pol home cwd v then validateKeys pol home cwd args ks
      else some (pathErrMsg v)
    | none => validateKeys pol home cwd args ks

/-- `ConfirmThenExecute._validate_arguments`: returns the first failure
message over the fixed path-like keys, `none` when all pass. -/
def validate_arguments (pol : Policy) (home : String) (cwd : List String)
    (args : Args) : Option String :=
  validateKeys pol home cwd args path_keys

/-! ## Sensitivity / confirmation policy -/

/-- Tool metadata as discovered by the router (`ToolSpec` dataclass). -/
structure ToolSpec where
  server_id : String
  name : String
  description : String
  sensitive : Bool
deriving Repr, DecidableEq

/-- The fixed mutating-operation keywords of `_needs_confirmation`. -/
def sensitive_ops : List String :=
  ["delete", "remove", "write", "create", "modify", "execute"]

/-- `ConfirmThenExecute._needs_confirmation`. -/
def needs_confirmation (pol : Policy) (tool : ToolSpec) : Bool :=
  if tool.sensitive then true
  else if sensitive_ops.any (fun op => strContains (lowerStr tool.name) op) then
    true
  else pol.require_confirmation

/-! ## Filler speech (`ConfirmThenExecute._filler_speech`) -/

/-- The k-th utterance (0-based, after the initial delay) of the filler
loop: the phrases in order while the index is in range, then
`phrases[-2]` when the list has more than one phrase, else `phrases[0]`. -/
def filler_utterance (phrases : List String) (k : Nat) : Option String :=
  if k < phrases.length then phrases.get? k
  else if phrases.length > 1 then phrases.get? (phrases.length - 2)
  else phrases.get? 0

/-! ## Router: tool search (`McpToolRouter.find_tools`) -/

/-- `query.lower().replace(",", " ").split()`: lower-case, split on
whitespace and commas, drop empty tokens. -/
def tokenize (query : String) : List String :=
  ((splitAccum (fun c => c.isWhitespace || c = ',') (lowerStr query).data []).map
    (fun cs => (⟨cs⟩ : String))).filter (fun t => !t.isEmpty)

/-- Score of one tool: how many query tokens occur as substrings of the
lower-cased `name description` haystack. -/
def toolScore (tokens : List String) (t : ToolSpec) : Nat :=
  (tokens.filter (fun tok =>
    strContains (lowerStr (t.name ++ " " ++ t.description)) tok)).length

/-- Comparison used by `scored_tools.sort(key=lambda x: (-x[0], x[1].name))`:
score descending, then name ascending. -/
def keyLe (a b : Nat × ToolSpec) : Bool :=
  decide (b.1 < a.1) || (decide (a.1 = b.1) && decide (a.2.name ≤ b.2.name))

/-- Stable insertion keeping earlier elements first among `keyLe`-ties,
matching Python's stable `list.sort`. -/
def insertStable (le : α → α → Bool) (a : α) : List α → List α
  | [] => [a]
  | b :: bs => if le b a then b :: insertStable le a bs else a :: b :: bs

/-- Stable sort by successive insertion (the model of Python `list.sort`). -/
def stableSort (le : α → α → Bool) (xs : List α) : List α :=
  xs.foldl (fun acc a => insertStable le a acc) []

/-- `McpToolRouter.find_tools`: keep tools with positive score, sort by
descending score then ascending name, truncate to `max_results`. -/
def find_tools (tools : List ToolSpec) (query : String) (max_results : Nat) :
    List ToolSpec :=
  let tokens := tokenize query
  let scored := (tools.map (fun t => (toolScore tokens t, t))).filter
    (fun p => decide (0 < p.1))
  ((stableSort keyLe scored).take max_results).map (fun p => p.2)

/-! ## Router: connection and discovery
(`McpToolRouter._connect_server`, `_refresh_tools`, `start`) -/

/-- A tool entry as returned by a backend's `tools/list` response. -/
structure RawTool where
  name : String
  description : String
deriving Repr, DecidableEq

/-- Building a `ToolSpec` from a discovery entry: sensitive iff any
configured keyword occurs in the lower-cased `name description` text. -/
def mkToolSpec (keywords : List String) (sid : String) (r : RawTool) :
    ToolSpec :=
  { server_id := sid
    name := r.name
    description := r.description
    sensitive := keywords.any (fun kw =>
      strContains (lowerStr (r.name ++ " " ++ r.description)) kw) }

/-- `_connect_server` for one config entry: on any connection failure the
backend is logged and simply not added to `self.clients` (the best-effort
`initialize` handshake never fails the connect); a repeated id overwrites
its dict slot, keeping one entry. -/
def connect_server (connectOk : String → Bool) (clients : List String)
    (sid : String) : List String :=
  if connectOk sid then
    (if clients.contains sid then clients else clients ++ [sid])
  else clients

/-- `_refresh_tools` over the connected client ids, in dict order: a backend
whose `tools/list` call fails (`disc sid = none`) is disconnected and
contributes no tools; each surviving backend contributes one `ToolSpec` per
returned entry.  Returns the surviving clients and the rebuilt catalog. -/
def refresh_tools (keywords : List String)
    (disc : String → Option (List RawTool)) :
    List String → List String × List ToolSpec
  | [] => ([], [])
  | sid :: rest =>
    match disc sid with
    | some raws =>
      let p := refresh_tools keywords disc rest
      (sid :: p.1, raws.map (mkToolSpec keywords sid) ++ p.2)
    | none => refresh_tools keywords disc rest

/-- `McpToolRouter.start` after config load: connect every configured
backend independently, then run one discovery pass.  `connectOk` is the
outcome oracle of each `client.start()` attempt and `disc` the outcome of
each `tools/list` call. -/
def start_router (connectOk : String → Bool) (keywords : List String)
    (disc : String → Option (List RawTool)) (cfg : List String) :
    List String × List ToolSpec :=
  refresh_tools keywords disc (cfg.foldl (connect_server connectOk) [])

/-! ## Coordinator: `ConfirmThenExecute.execute` -/

/-- One entry of `self.execution_history`. -/
structure ExecutionRecord where
  tool : String
  action : String
  args_hash : String
  success : Bool
  timestamp : Nat
  duration : Nat
deriving Repr, DecidableEq

/-- The structured result dict of `execute()`.  Keys absent from a given
return dict are `none` / `false`: the generic-failure dict carries no
`action` key, only the decline dict carries `canceled`. -/
structure ExecResult where
  success : Bool
  tool : String
  action : Option String := none
  error : Option String := none
  payload : Option String := none
  summary : Option String := none
  args_hash : Option String := none
  canceled : Bool := false
deriving Repr, DecidableEq

/-- Observable actions of one `execute()` invocation, in order. -/
inductive Event where
  | say (text : String)
  | fillerStart
  | routerCall (server tool : String) (timeout : Nat)
deriving Repr, DecidableEq

/-- Outcome of `listen_yes_no` (the raised `asyncio.TimeoutError` case
included). -/
inductive ConfirmResp where
  | yes
  | no
  | timedOut
deriving Repr, DecidableEq

/-- Outcome of `router.call_tool`: a decoded result payload, a raised
timeout, or any other raised exception with its message text. -/
inductive CallOutcome where
  | ok (payload : String)
  | timeout
  | err (msg : String)
deriving Repr, DecidableEq

/-- Spoken announcement `I'll {action}.`. -/
def announceText (action : String) : String :=
  "I" ++ squote ++ "ll " ++ action ++ "."

/-- Spoken notice after a confirmation timeout. -/
def noResponseText : String :=
  "I didn" ++ squote ++ "t hear a response, so I" ++ squote ++
    "ll cancel that."

/-- Spoken notice after an explicit decline. -/
def declineText : String := "Okay, I won" ++ squote ++ "t do that."

/-- Spoken notice on a tool-call timeout. -/
def tooLongText : String := "The tool is taking too long to respond."

/-- Spoken apology when the error text mentions a missing object. -/
def notFoundText : String :=
  "I couldn" ++ squote ++ "t find what you" ++ squote ++ "re looking for."

/-- Spoken apology when the error text mentions permissions. -/
def permissionText : String := "I don" ++ squote ++ "t have permission to do that."

/-- Spoken apology for any other tool failure. -/
def genericFailText : String := "Something went wrong with that tool."

/-- The calendar/reminder special case of `execute()` that suppresses the
redundant `I'll {action}.` announcement. -/
def skip_announcement (tool : ToolSpec) (args : Args) : Bool :=
  if strContains (lowerStr tool.name) "applescript" then
    let code := (lookupStr args "code_snippet").getD ""
    (strContains (lowerStr code) "calendar" &&
      strContains (lowerStr code) "make new event") ||
    (strContains (lowerStr code) "reminders" &&
      strContains (lowerStr code) "make new reminder")
  else false

/-- Classification of a non-timeout tool error into a spoken apology
(not-found / permission / generic), as in the `except Exception` branch. -/
def apologyFor (msg : String) : String :=
  if strContains (lowerStr msg) "not found" then notFoundText
  else if strContains (lowerStr msg) "permission" then permissionText
  else genericFailText

/-- The execution step of `execute()` (the `try` block guarded by the filler
task): dispatch the router call, then summarize and record on success,
or report a timeout or classified failure.  Returns the result dict, the
events emitted from this point on, and the updated history. -/
def runCall (summarize : String → String → String)
    (hashArgs : Args → String) (hist : List ExecutionRecord)
    (tool : ToolSpec) (args : Args) (action : String) (tmo : Nat)
    (call : CallOutcome) (now dur : Nat) :
    ExecResult × List Event × List ExecutionRecord :=
  let pre : List Event :=
    [Event.fillerStart, Event.routerCall tool.server_id tool.name tmo]
  match call with
  | .ok payload =>
    let summary := summarize action payload
    let entry : ExecutionRecord :=
      { tool := tool.name, action := action, args_hash := hashArgs args
        success := true, timestamp := now, duration := dur }
    ({ success := true, tool := tool.name, action := some action
       payload := some payload, summary := some summary
       args_hash := some (hashArgs args) },
     pre ++ [Event.say summary], hist ++ [entry])
  | .timeout =>
    ({ success := false, tool := tool.name, action := some action
       error := some "Tool timeout" },
     pre ++ [Event.say tooLongText], hist)
  | .err msg =>
    ({ success := false, tool := tool.name, error := some msg },
     pre ++ [Event.say (apologyFor msg)], hist)

/-- `ConfirmThenExecute.execute`: describe, validate, announce, optionally
confirm, then execute with the filler task.  `describe`, `summarize`,
`hashArgs` and `promptOf` model the external action namer, summarizer,
the `_hash_arguments` fingerprint and `_format_confirmation_prompt` (whose
wording does not influence control flow); `confirm` and `call` are the
outcome oracles of the two awaits; `now` and `dur` the clock readings. -/
def execute (pol : Policy) (home : String) (cwd : List String)
    (describe : String → Args → String)
    (summarize : String → String → String)
    (hashArgs : Args → String)
    (promptOf : ToolSpec → Args → String)
    (hist : List ExecutionRecord)
    (tool : ToolSpec) (args : Args)
    (timeoutArg : Option Nat) (skip_confirmation : Bool)
    (confirm : ConfirmResp) (call : CallOutcome) (now dur : Nat) :
    ExecResult × List Event × List ExecutionRecord :=
  let action := describe tool.name args
  match validate_arguments pol home cwd args with
  | some verr =>
    ({ success := false, tool := tool.name, action := some action
       error := some verr },
     [Event.say verr], hist)
  | none =>
    let ann : List Event :=
      if skip_announcement tool args then []
      else [Event.say (announceText action)]
    let tmo := timeoutArg.getD pol.tool_timeout_sec
    if !skip_confirmation && needs_confirmation pol tool then
      let pre := ann ++ [Event.say (promptOf tool args)]
      match confirm with
      | .timedOut =>
        ({ success := false, tool := tool.name, action := some action
           error := some "Confirmation timeout" },
         pre ++ [Event.say noResponseText], hist)
      | .no =>
        ({ success := false, tool := tool.name, action := some action
           error := some "User declined", canceled := true },
         pre ++ [Event.say declineText], hist)
      | .yes =>
        let r := runCall summarize hashArgs hist tool args action tmo call
          now dur
        (r.1, pre ++ r.2.1, r.2.2)
    else
      let r := runCall summarize hashArgs hist tool args action tmo call
        now dur
      (r.1, ann ++ r.2.1, r.2.2)

/-- `ConfirmThenExecute.get_recent_executions`: the Python slice
`history[-limit:]` for a non-empty history, `[]` otherwise; a zero limit
degenerates to the whole list. -/
def get_recent_executions (hist : List ExecutionRecord) (limit : Nat) :
    List ExecutionRecord :=
  if hist.isEmpty then []
  else if limit = 0 then hist
  else hist.drop (hist.length - limit)

/-! ## Concrete fixtures used to evaluate the definitions -/

/-- Policy of the worked example: one allowed root, confirmation required. -/
def demoPolicy : Policy :=
  { allowed_roots := ["/home/user/docs"], require_confirmation := true
    confirm_timeout_sec := 6, tool_timeout_sec := 25 }

/-- Policy with no path restrictions and no default confirmation. -/
def openPolicy : Policy :=
  { allowed_roots := [], require_confirmation := false
    confirm_timeout_sec := 6, tool_timeout_sec := 25 }

/-- A harmless read-only tool: never requires confirmation under
`openPolicy`. -/
def statusTool : ToolSpec :=
  { server_id := "s1", name := "status", description := "read status"
    sensitive := false }

/-- A mutating tool: its name contains `write`, so `_needs_confirmation`
is true regardless of policy. -/
def writeTool : ToolSpec :=
  { server_id := "s1", name := "write_file", description := "write a file"
    sensitive := false }

/-- A tool matching the query `battery`. -/
def batteryTool : ToolSpec :=
  { server_id := "s1", name := "battery_status"
    description := "read the battery level", sensitive := false }

/-- A tool matching no token of the query `battery`. -/
def notesTool : ToolSpec :=
  { server_id := "s1", name := "apple_notes", description := "open notes"
    sensitive := false }

/-- Fixed stand-ins for the injected collaborators. -/
def demoDescribe : String → Args → String := fun _ _ => "check the status"

/-- Fixed summarizer stand-in. -/
def demoSummarize : String → String → String := fun _ r => r

/-- Fixed argument-fingerprint stand-in. -/
def demoHash : Args → String := fun _ => "abc12345"

/-- Fixed confirmation-prompt stand-in. -/
def demoPrompt : ToolSpec → Args → String :=
  fun _ _ => "Do you want me to check the status?"

/-- One `execute()` invocation of `statusTool` under `openPolicy` with the
given history and oracles. -/
def execDemo (hist : List ExecutionRecord) (confirm : ConfirmResp)
    (call : CallOutcome) : ExecResult × List Event × List ExecutionRecord :=
  execute openPolicy "/home/user" [] demoDescribe demoSummarize demoHash
    demoPrompt hist statusTool [] none false confirm call 0 1

/-- The history after one successful demo invocation. -/
def execHistStep (hist : List ExecutionRecord) : List ExecutionRecord :=
  (execDemo hist .yes (.ok "ok")).2.2

/-- The history after `n` successful demo invocations. -/
def execHistIter : Nat → List ExecutionRecord
  | 0 => []
  | n + 1 => execHistStep (execHistIter n)

/-! ## Helper lemmas -/

/-- `validateKeys` accepts when every present path-like string value
passes `validate_path`. -/
theorem validateKeys_none (pol : Policy) (home : String) (cwd : List String)
    (args : Args) (ks : List String)
    (hall : ∀ k ∈ ks, ∀ v, lookupStr args k = some v →
      validate_path pol home cwd v = true) :
    validateKeys pol home cwd args ks = none := by
  induction ks with
  | nil => rfl
  | cons k ks ih =>
    cases hv : lookupStr args k with
    | none =>
      simp only [validateKeys, hv]
      exact ih fun k hk v h => hall k (List.mem_cons_of_mem _ hk) v h
    | some v =>
      simp only [validateKeys, hv, hall k (List.mem_cons_self _ _) v hv,
        if_true]
      exact ih fun k hk v h => hall k (List.mem_cons_of_mem _ hk) v h

/-- `validateKeys` reports the first offending path when one exists. -/
theorem validateKeys_some (pol : Policy) (home : String) (cwd : List String)
    (args : Args) (ks : List String)
    (hex : ∃ k ∈ ks, ∃ v, lookupStr args k = some v ∧
      validate_path pol home cwd v = false) :
    ∃ k ∈ ks, ∃ v, lookupStr args k = some v ∧
      validate_path pol home cwd v = false ∧
      validateKeys pol home cwd args ks = some (pathErrMsg v) := by
  induction ks with
  | nil => simp at hex
  | cons k ks ih =>
    obtain ⟨k₀, hk₀, v₀, hl₀, hbad₀⟩ := hex
    cases hv : lookupStr args k with
    | none =>
      have hk₀' : k₀ ∈ ks := by
        rcases List.mem_cons.mp hk₀ with h | h
        · subst h; rw [hv] at hl₀; exact absurd hl₀ (by simp)
        · exact h
      obtain ⟨k', hk', v', h₁, h₂, h₃⟩ := ih ⟨k₀, hk₀', v₀, hl₀, hbad₀⟩
      refine ⟨k', List.mem_cons_of_mem _ hk', v', h₁, h₂, ?_⟩
      simpa only [validateKeys, hv] using h₃
    | some v =>
      by_cases hgood : validate_path pol home cwd v = true
      · have hk₀' : k₀ ∈ ks := by
          rcases List.mem_cons.mp hk₀ with h | h
          · subst h; rw [hv] at hl₀
            injection hl₀ with hveq; subst hveq
            rw [hgood] at hbad₀; exact absurd hbad₀ (by simp)
          · exact h
        obtain ⟨k', hk', v', h₁, h₂, h₃⟩ := ih ⟨k₀, hk₀', v₀, hl₀, hbad₀⟩
        refine ⟨k', List.mem_cons_of_mem _ hk', v', h₁, h₂, ?_⟩
        simpa only [validateKeys, hv, hgood, if_true] using h₃
      · have hbad : validate_path pol home cwd v = false :=
          Bool.eq_false_iff.mpr hgood
        refine ⟨k, List.mem_cons_self _ _, v, hv, hbad, ?_⟩
        simp only [validateKeys, hv, hbad]
        simp

/-- Characterisation of `keyLe` as a proposition. -/
theorem keyLe_iff (a b : Nat × ToolSpec) :
    keyLe a b = true ↔ b.1 < a.1 ∨ (a.1 = b.1 ∧ a.2.name ≤ b.2.name) := by
  simp [keyLe]

/-- `keyLe` is total. -/
theorem keyLe_total (a b : Nat × ToolSpec) :
    keyLe a b = true ∨ keyLe b a = true := by
  rw [keyLe_iff, keyLe_iff]
  rcases lt_trichotomy a.1 b.1 with h | h | h
  · exact Or.inr (Or.inl h)
  · rcases le_total a.2.name b.2.name with hn | hn
    · exact Or.inl (Or.inr ⟨h, hn⟩)
    · exact Or.inr (Or.inr ⟨h.symm, hn⟩)
  · exact Or.inl (Or.inl h)

/-- `keyLe` is transitive. -/
theorem keyLe_trans (a b c : Nat × ToolSpec)
    (hab : keyLe a b = true) (hbc : keyLe b c = true) : keyLe a c = true := by
  rw [keyLe_iff] at hab hbc ⊢
  rcases hab with h₁ | ⟨h₁, h₁n⟩ <;> rcases hbc with h₂ | ⟨h₂, h₂n⟩
  · exact Or.inl (h₂.trans h₁)
  · exact Or.inl (h₂ ▸ h₁)
  · exact Or.inl (h₁ ▸ h₂)
  · exact Or.inr ⟨h₁.trans h₂, h₁n.trans h₂n⟩

/-- Membership through `insertStable`. -/
theorem mem_insertStable (le : α → α → Bool) (a x : α) (l : List α) :
    x ∈ insertStable le a l ↔ x = a ∨ x ∈ l := by
  induction l with
  | nil => simp [insertStable]
  | cons b bs ih =>
    cases hba : le b a with
    | true =>
      simp only [insertStable, hba, if_true, List.mem_cons, ih]
      tauto
    | false =>
      simp [insertStable, hba, List.mem_cons]

/-- `insertStable` preserves sortedness for a total transitive comparison. -/
theorem pairwise_insertStable (le : α → α → Bool)
    (total : ∀ a b, le a b = true ∨ le b a = true)
    (htrans : ∀ a b c, le a b = true → le b c = true → le a c = true)
    (a : α) (l : List α) (h : l.Pairwise (fun x y => le x y = true)) :
    (insertStable le a l).Pairwise (fun x y => le x y = true) := by
  induction l with
  | nil => simp [insertStable]
  | cons b bs ih =>
    rcases List.pairwise_cons.mp h with ⟨hb, hbs⟩
    by_cases hba : le b a = true
    · simp only [insertStable, hba, if_true]
      refine List.pairwise_cons.mpr ⟨?_, ih hbs⟩
      intro y hy
      rcases (mem_insertStable le a y bs).mp hy with rfl | hy
      · exact hba
      · exact hb y hy
    · have hab : le a b = true := (total a b).resolve_right (by
        intro hc; exact hba hc)
      simp only [insertStable, hba, if_false]
      refine List.pairwise_cons.mpr ⟨?_, h⟩
      intro y hy
      rcases List.mem_cons.mp hy with rfl | hy
      · exact hab
      · exact htrans a b y hab (hb y hy)

/-- Membership through the fold underlying `stableSort`. -/
theorem mem_stableSort_fold (le : α → α → Bool) (xs acc : List α) (x : α) :
    x ∈ xs.foldl (fun acc a => insertStable le a acc) acc ↔
      x ∈ acc ∨ x ∈ xs := by
  induction xs generalizing acc with
  | nil => simp
  | cons a as ih =>
    simp only [List.foldl_cons, ih, mem_insertStable, List.mem_cons]
    tauto

/-- Membership through `stableSort`. -/
theorem mem_stableSort (le : α → α → Bool) (xs : List α) (x : α) :
    x ∈ stableSort le xs ↔ x ∈ xs := by
  simp [stableSort, mem_stableSort_fold]

/-- The fold underlying `stableSort` preserves sortedness. -/
theorem pairwise_stableSort_fold (le : α → α → Bool)
    (total : ∀ a b, le a b = true ∨ le b a = true)
    (htrans : ∀ a b c, le a b = true → le b c = true → le a c = true)
    (xs acc : List α) (hacc : acc.Pairwise (fun x y => le x y = true)) :
    (xs.foldl (fun acc a => insertStable le a acc) acc).Pairwise
      (fun x y => le x y = true) := by
  induction xs generalizing acc with
  | nil => exact hacc
  | cons a as ih =>
    exact ih _ (pairwise_insertStable le total htrans a acc hacc)

/-- `stableSort` sorts with respect to a total transitive comparison. -/
theorem pairwise_stableSort (le : α → α → Bool)
    (total : ∀ a b, le a b = true ∨ le b a = true)
    (htrans : ∀ a b c, le a b = true → le b c = true → le a c = true)
    (xs : List α) :
    (stableSort le xs).Pairwise (fun x y => le x y = true) :=
  pairwise_stableSort_fold le total htrans xs [] (by simp)

/-- Membership in the client set built by the connection loop of
`start()`. -/
theorem mem_connect_foldl (connectOk : String → Bool) (cfg acc : List String)
    (sid : String) :
    sid ∈ cfg.foldl (connect_server connectOk) acc ↔
      sid ∈ acc ∨ (sid ∈ cfg ∧ connectOk sid = true) := by
  induction cfg generalizing acc with
  | nil => simp
  | cons c cs ih =>
    simp only [List.foldl_cons, ih, List.mem_cons]
    unfold connect_server
    by_cases hok : connectOk c = true
    · simp only [hok, if_true]
      by_cases hmem : acc.contains c = true
      · have : c ∈ acc := by simpa using hmem
        simp only [hmem, if_true]
        constructor
        · rintro (h | h)
          · exact Or.inl h
          · exact Or.inr ⟨Or.inr h.1, h.2⟩
        · rintro (h | ⟨rfl | h, hok'⟩)
          · exact Or.inl h
          · exact Or.inl this
          · exact Or.inr ⟨h, hok'⟩
      · simp only [hmem, if_false]
        constructor
        · rintro (h | h)
          · rcases List.mem_append.mp h with h | h
            · exact Or.inl h
            · rcases List.mem_singleton.mp h with rfl
              exact Or.inr ⟨Or.inl rfl, hok⟩
          · exact Or.inr ⟨Or.inr h.1, h.2⟩
        · rintro (h | ⟨rfl | h, hok'⟩)
          · exact Or.inl (List.mem_append.mpr (Or.inl h))
          · exact Or.inl (List.mem_append.mpr (Or.inr (by simp)))
          · exact Or.inr ⟨h, hok'⟩
    · have hok' : connectOk c = false := Bool.eq_false_iff.mpr hok
      simp only [hok', Bool.false_eq_true, if_false]
      constructor
      · rintro (h | h)
        · exact Or.inl h
        · exact Or.inr ⟨Or.inr h.1, h.2⟩
      · rintro (h | ⟨rfl | h, hok2⟩)
        · exact Or.inl h
        · rw [hok'] at hok2; exact absurd hok2 (by simp)
        · exact Or.inr ⟨h, hok2⟩

/-- Surviving clients of a discovery pass: exactly the previously connected
backends whose `tools/list` call succeeded. -/
theorem refresh_clients_mem (keywords : List String)
    (disc : String → Option (List RawTool)) (cs : List String)
    (sid : String) :
    sid ∈ (refresh_tools keywords disc cs).1 ↔
      sid ∈ cs ∧ disc sid ≠ none := by
  induction cs with
  | nil => simp [refresh_tools]
  | cons c cs ih =>
    cases hd : disc c with
    | some raws =>
      simp only [refresh_tools, hd, List.mem_cons, ih]
      constructor
      · rintro (rfl | ⟨h₁, h₂⟩)
        · exact ⟨Or.inl rfl, by simp [hd]⟩
        · exact ⟨Or.inr h₁, h₂⟩
      · rintro ⟨rfl | h₁, h₂⟩
        · exact Or.inl rfl
        · exact Or.inr ⟨h₁, h₂⟩
    | none =>
      simp only [refresh_tools, hd, ih, List.mem_cons]
      constructor
      · rintro ⟨h₁, h₂⟩
        exact ⟨Or.inr h₁, h₂⟩
      · rintro ⟨rfl | h₁, h₂⟩
        · exact absurd hd h₂
        · exact ⟨h₁, h₂⟩

/-- Every catalog entry of a discovery pass belongs to a surviving backend
whose discovery succeeded and returned it. -/
theorem refresh_tools_sound (keywords : List String)
    (disc : String → Option (List RawTool)) (cs : List String)
    (t : ToolSpec) (ht : t ∈ (refresh_tools keywords disc cs).2) :
    t.server_id ∈ (refresh_tools keywords disc cs).1 ∧
      ∃ raws, disc t.server_id = some raws ∧
        ∃ r ∈ raws, t = mkToolSpec keywords t.server_id r := by
  induction cs with
  | nil => simp [refresh_tools] at ht
  | cons c cs ih =>
    cases hd : disc c with
    | some raws =>
      simp only [refresh_tools, hd] at ht
      rcases List.mem_append.mp ht with h | h
      · rcases List.mem_map.mp h with ⟨r, hr, rfl⟩
        have hsid : (mkToolSpec keywords c r).server_id = c := rfl
        refine ⟨?_, ?_⟩
        · simp [refresh_tools, hd, hsid]
        · exact ⟨raws, by rw [hsid]; exact ⟨hd, r, hr, rfl⟩⟩
      · obtain ⟨h₁, h₂⟩ := ih h
        exact ⟨by simp [refresh_tools, hd, List.mem_cons]; exact Or.inr h₁, h₂⟩
    | none =>
      simp only [refresh_tools, hd] at ht
      obtain ⟨h₁, h₂⟩ := ih ht
      exact ⟨by simp [refresh_tools, hd]; exact h₁, h₂⟩

/-- A backend whose discovery succeeded keeps all its discovered tools in
the rebuilt catalog. -/
theorem refresh_tools_complete (keywords : List String)
    (disc : String → Option (List RawTool)) (cs : List String)
    (sid : String) (raws : List RawTool) (hmem : sid ∈ cs)
    (hd : disc sid = some raws) :
    ∀ r ∈ raws, mkToolSpec keywords sid r ∈ (refresh_tools keywords disc cs).2 := by
  induction cs with
  | nil => simp at hmem
  | cons c cs ih =>
    intro r hr
    rcases List.mem_cons.mp hmem with rfl | hmem'
    · simp only [refresh_tools, hd]
      exact List.mem_append.mpr (Or.inl (List.mem_map.mpr ⟨r, hr, rfl⟩))
    · cases hdc : disc c with
      | some raws' =>
        simp only [refresh_tools, hdc]
        exact List.mem_append.mpr (Or.inr (ih hmem' r hr))
      | none =>
        simp only [refresh_tools, hdc]
        exact ih hmem' r hr

/-! ## Claim theorems -/

/-- Claim C3, counterexample: with phrases `a, b, c`, the fourth utterance
(the first after the list is exhausted) is `b`, the second-to-last phrase,
not the final phrase `c`. -/
theorem c3_counterexample :
    filler_utterance ["a", "b", "c"] 3 = some "b" ∧
      filler_utterance ["a", "b", "c"] 3 ≠ some "c" := by
  constructor
  · decide
  · decide

/-- Claim C3 (amended): for every non-empty phrase list the filler speaks
the phrases in list order; once the list is exhausted every subsequent
utterance is the second-to-last phrase when the list has at least two
phrases, and the sole phrase otherwise. -/
theorem c3_filler_rotation (phrases : List String) (hne : phrases ≠ [])
    (k : Nat) :
    (k < phrases.length → filler_utterance phrases k = phrases.get? k) ∧
    (phrases.length ≤ k →
      (2 ≤ phrases.length →
        filler_utterance phrases k = phrases.dropLast.getLast?) ∧
      (phrases.length = 1 → filler_utterance phrases k = phrases.head?)) := by
  constructor
  · intro hk
    simp [filler_utterance, hk]
  · intro hk
    have hk' : ¬ k < phrases.length := not_lt.mpr hk
    constructor
    · intro h2
      have h1 : 1 < phrases.length := h2
      simp only [filler_utterance, hk', if_false, h1, if_true]
      rw [List.getLast?_eq_get?, List.dropLast_eq_take, List.length_take]
      have hlen : phrases.length - 1 ≤ phrases.length := Nat.sub_le _ _
      rw [Nat.min_eq_left hlen]
      rw [List.get?_take (by omega)]
      congr 1
    · intro h1
      have hng : ¬ phrases.length > 1 := by omega
      simp only [filler_utterance, hk', if_false, hng]
      cases phrases with
      | nil => simp at h1
      | cons p ps => simp

/-- Claim C3 witness: with phrases `a, b, c` the sixth utterance is the
second-to-last phrase. -/
theorem c3_witness : filler_utterance ["a", "b", "c"] 5 = some "b" := by
  have h := ((c3_filler_rotation ["a", "b", "c"] (by decide) 5).2
    (by decide)).1 (by decide)
  simpa using h

/-- Claim C5: when argument validation fails, `execute()` speaks exactly
the validation reason, returns the structured failure result carrying that
reason, leaves the history untouched, and emits no announcement, no
confirmation prompt, no filler task and no router call. -/
theorem c5_validation_short_circuits
    (pol : Policy) (home : String) (cwd : List String)
    (describe : String → Args → String) (summarize : String → String → String)
    (hashArgs : Args → String) (promptOf : ToolSpec → Args → String)
    (hist : List ExecutionRecord) (tool : ToolSpec) (args : Args)
    (timeoutArg : Option Nat) (skipConf : Bool) (confirm : ConfirmResp)
    (call : CallOutcome) (now dur : Nat) (verr : String)
    (hv : validate_arguments pol home cwd args = some verr) :
    execute pol home cwd describe summarize hashArgs promptOf hist tool args
        timeoutArg skipConf confirm call now dur =
      ({ success := false, tool := tool.name,
         action := some (describe tool.name args), error := some verr,
         payload := none, summary := none, args_hash := none,
         canceled := false },
       [Event.say verr], hist) := by
  simp [execute, hv]

/-- Claim C5 witness: a path outside the single allowed root fails
validation and short-circuits with the spoken reason. -/
theorem c5_witness :
    execute demoPolicy "/home/user" [] demoDescribe demoSummarize demoHash
        demoPrompt [] statusTool [("path", ArgVal.str "/etc/passwd")] none
        false ConfirmResp.yes (CallOutcome.ok "r") 0 1 =
      ({ success := false, tool := "status",
         action := some "check the status",
         error := some (pathErrMsg "/etc/passwd"), payload := none,
         summary := none, args_hash := none, canceled := false },
       [Event.say (pathErrMsg "/etc/passwd")], []) := by
  have h := c5_validation_short_circuits demoPolicy "/home/user" []
    demoDescribe demoSummarize demoHash demoPrompt [] statusTool
    [("path", ArgVal.str "/etc/passwd")] none false ConfirmResp.yes
    (CallOutcome.ok "r") 0 1 (pathErrMsg "/etc/passwd") (by decide)
  simpa using h

/-- Claim C4: on an explicit `no` for a tool requiring confirmation,
`execute()` returns `success = false, canceled = true`, issues no router
call, starts no filler task and leaves the history unchanged. -/
theorem c4_decline_no_router_call
    (pol : Policy) (home : String) (cwd : List String)
    (describe : String → Args → String) (summarize : String → String → String)
    (hashArgs : Args → String) (promptOf : ToolSpec → Args → String)
    (hist : List ExecutionRecord) (tool : ToolSpec) (args : Args)
    (timeoutArg : Option Nat) (call : CallOutcome) (now dur : Nat)
    (hv : validate_arguments pol home cwd args = none)
    (hneed : needs_confirmation pol tool = true) :
    (execute pol home cwd describe summarize hashArgs promptOf hist tool args
        timeoutArg false ConfirmResp.no call now dur).1 =
      { success := false, tool := tool.name,
        action := some (describe tool.name args),
        error := some "User declined", payload := none, summary := none,
        args_hash := none, canceled := true } ∧
    (∀ s t tmo, Event.routerCall s t tmo ∉
      (execute pol home cwd describe summarize hashArgs promptOf hist tool
        args timeoutArg false ConfirmResp.no call now dur).2.1) ∧
    Event.fillerStart ∉
      (execute pol home cwd describe summarize hashArgs promptOf hist tool
        args timeoutArg false ConfirmResp.no call now dur).2.1 ∧
    (execute pol home cwd describe summarize hashArgs promptOf hist tool args
        timeoutArg false ConfirmResp.no call now dur).2.2 = hist := by
  by_cases hs : skip_announcement tool args = true <;>
    refine ⟨by simp [execute, hv, hneed, hs], ?_, ?_, ?_⟩ <;>
    simp [execute, hv, hneed, hs]

/-- Claim C4 witness: declining `write_file` cancels with no router call. -/
theorem c4_witness :
    (execute openPolicy "/home/user" [] demoDescribe demoSummarize demoHash
        demoPrompt [] writeTool [] none false ConfirmResp.no
        (CallOutcome.ok "r") 0 1).1.canceled = true ∧
    (∀ s t tmo, Event.routerCall s t tmo ∉
      (execute openPolicy "/home/user" [] demoDescribe demoSummarize demoHash
        demoPrompt [] writeTool [] none false ConfirmResp.no
        (CallOutcome.ok "r") 0 1).2.1) := by
  have h := c4_decline_no_router_call openPolicy "/home/user" [] demoDescribe
    demoSummarize demoHash demoPrompt [] writeTool [] none
    (CallOutcome.ok "r") 0 1 (by decide) (by decide)
  exact ⟨by rw [h.1], h.2.1⟩

/-- Claim C9: when the tool call raises a timeout after the execution step
is reached, `execute()` returns `success = false` with error
`Tool timeout`, and that result differs from the one returned for every
generic (non-timeout) failure, whatever its message. -/
theorem c9_timeout_distinct
    (pol : Policy) (home : String) (cwd : List String)
    (describe : String → Args → String) (summarize : String → String → String)
    (hashArgs : Args → String) (promptOf : ToolSpec → Args → String)
    (hist : List ExecutionRecord) (tool : ToolSpec) (args : Args)
    (timeoutArg : Option Nat) (skipConf : Bool) (confirm : ConfirmResp)
    (now dur : Nat)
    (hv : validate_arguments pol home cwd args = none)
    (hreach : skipConf = true ∨ needs_confirmation pol tool = false ∨
      confirm = ConfirmResp.yes) :
    (execute pol home cwd describe summarize hashArgs promptOf hist tool args
        timeoutArg skipConf confirm CallOutcome.timeout now dur).1 =
      { success := false, tool := tool.name,
        action := some (describe tool.name args),
        error := some "Tool timeout", payload := none, summary := none,
        args_hash := none, canceled := false } ∧
    ∀ m,
      (execute pol home cwd describe summarize hashArgs promptOf hist tool
        args timeoutArg skipConf confirm CallOutcome.timeout now dur).1 ≠
      (execute pol home cwd describe summarize hashArgs promptOf hist tool
        args timeoutArg skipConf confirm (CallOutcome.err m) now dur).1 := by
  have hmain : ∀ call, (execute pol home cwd describe summarize hashArgs
      promptOf hist tool args timeoutArg skipConf confirm call now dur).1 =
      (runCall summarize hashArgs hist tool args (describe tool.name args)
        (timeoutArg.getD pol.tool_timeout_sec) call now dur).1 := by
    intro call
    rcases hreach with rfl | hno | rfl
    · simp [execute, hv]
    · simp [execute, hv, hno]
    · by_cases hc : (!skipConf && needs_confirmation pol tool) = true <;>
        simp [execute, hv, hc]
  constructor
  · rw [hmain]
    simp [runCall]
  · intro m
    rw [hmain, hmain]
    simp [runCall, ExecResult.mk.injEq]

/-- Claim C9 witness: a timed-out status call reports `Tool timeout` and
differs from the result for a generic failure. -/
theorem c9_witness :
    (execute openPolicy "/home/user" [] demoDescribe demoSummarize demoHash
        demoPrompt [] statusTool [] none false ConfirmResp.yes
        CallOutcome.timeout 0 1).1.error = some "Tool timeout" ∧
    (execute openPolicy "/home/user" [] demoDescribe demoSummarize demoHash
        demoPrompt [] statusTool [] none false ConfirmResp.yes
        CallOutcome.timeout 0 1).1 ≠
      (execute openPolicy "/home/user" [] demoDescribe demoSummarize demoHash
        demoPrompt [] statusTool [] none false ConfirmResp.yes
        (CallOutcome.err "boom") 0 1).1 := by
  have h := c9_timeout_distinct openPolicy "/home/user" [] demoDescribe
    demoSummarize demoHash demoPrompt [] statusTool [] none false
    ConfirmResp.yes 0 1 (by decide) (Or.inr (Or.inl (by decide)))
  exact ⟨by rw [h.1], h.2 "boom"⟩

/-- Claim C1, counterexample: a generic tool failure returns
`success = false` yet appends no record at all — the history stays empty
rather than gaining a `success = false` entry. -/
theorem c1_counterexample :
    (execDemo [] ConfirmResp.yes (CallOutcome.err "boom")).1.success =
      false ∧
    (execDemo [] ConfirmResp.yes (CallOutcome.err "boom")).2.2 = [] := by
  constructor
  · decide
  · decide

/-- Claim C1 (amended): for every invocation reaching the execution step, a
record is appended exactly when the tool call succeeds — a `success = true`
record on success, and nothing on a timeout or any other failure. -/
theorem c1_record_appended_iff_success
    (pol : Policy) (home : String) (cwd : List String)
    (describe : String → Args → String) (summarize : String → String → String)
    (hashArgs : Args → String) (promptOf : ToolSpec → Args → String)
    (hist : List ExecutionRecord) (tool : ToolSpec) (args : Args)
    (timeoutArg : Option Nat) (skipConf : Bool) (confirm : ConfirmResp)
    (call : CallOutcome) (now dur : Nat)
    (hv : validate_arguments pol home cwd args = none)
    (hreach : skipConf = true ∨ needs_confirmation pol tool = false ∨
      confirm = ConfirmResp.yes) :
    (execute pol home cwd describe summarize hashArgs promptOf hist tool args
        timeoutArg skipConf confirm call now dur).2.2 =
      hist ++
        (match call with
         | .ok _ =>
           [{ tool := tool.name, action := describe tool.name args,
              args_hash := hashArgs args, success := true, timestamp := now,
              duration := dur }]
         | .timeout => []
         | .err _ => []) := by
  have hmain : (execute pol home cwd describe summarize hashArgs promptOf
      hist tool args timeoutArg skipConf confirm call now dur).2.2 =
      (runCall summarize hashArgs hist tool args (describe tool.name args)
        (timeoutArg.getD pol.tool_timeout_sec) call now dur).2.2 := by
    rcases hreach with rfl | hno | rfl
    · simp [execute, hv]
    · simp [execute, hv, hno]
    · by_cases hc : (!skipConf && needs_confirmation pol tool) = true <;>
        simp [execute, hv, hc]
  rw [hmain]
  cases call <;> simp [runCall]

/-- Claim C1 witness: a successful call appends its `success = true`
record. -/
theorem c1_witness :
    (execDemo [] ConfirmResp.yes (CallOutcome.ok "r")).2.2 =
      [{ tool := "status", action := "check the status",
         args_hash := "abc12345", success := true, timestamp := 0,
         duration := 1 }] := by
  have h := c1_record_appended_iff_success openPolicy "/home/user" []
    demoDescribe demoSummarize demoHash demoPrompt [] statusTool [] none
    false ConfirmResp.yes (CallOutcome.ok "r") 0 1 (by decide)
    (Or.inr (Or.inl (by decide)))
  simpa [execDemo] using h

/-- Claim C2, counterexample: the history has no bound and nothing is ever
trimmed from its head — six successful invocations leave six stored
records, with the first record still at the head, exceeding the spec's
most-recent-five lookback. -/
theorem c2_counterexample :
    (execHistIter 6).length = 6 ∧
    (execHistIter 6).head? = (execHistIter 1).head? := by
  constructor
  · decide
  · decide

/-- Claim C2 (amended): the history is an unbounded append-only log — every
invocation leaves the existing records in place unchanged and appends at
most one new record at the tail; no trimming ever occurs. -/
theorem c2_history_append_only
    (pol : Policy) (home : String) (cwd : List String)
    (describe : String → Args → String) (summarize : String → String → String)
    (hashArgs : Args → String) (promptOf : ToolSpec → Args → String)
    (hist : List ExecutionRecord) (tool : ToolSpec) (args : Args)
    (timeoutArg : Option Nat) (skipConf : Bool) (confirm : ConfirmResp)
    (call : CallOutcome) (now dur : Nat) :
    ∃ tail,
      (execute pol home cwd describe summarize hashArgs promptOf hist tool
        args timeoutArg skipConf confirm call now dur).2.2 = hist ++ tail ∧
      tail.length ≤ 1 := by
  cases hv : validate_arguments pol home cwd args with
  | some v => exact ⟨[], by simp [execute, hv], by simp⟩
  | none =>
    by_cases hc : (!skipConf && needs_confirmation pol tool) = true
    · cases confirm with
      | timedOut => exact ⟨[], by simp [execute, hv, hc], by simp⟩
      | no => exact ⟨[], by simp [execute, hv, hc], by simp⟩
      | yes =>
        cases call with
        | ok p =>
          exact ⟨[{ tool := tool.name, action := describe tool.name args,
                    args_hash := hashArgs args, success := true,
                    timestamp := now, duration := dur }],
            by simp [execute, hv, hc, runCall], by simp⟩
        | timeout => exact ⟨[], by simp [execute, hv, hc, runCall], by simp⟩
        | err m => exact ⟨[], by simp [execute, hv, hc, runCall], by simp⟩
    · cases call with
      | ok p =>
        exact ⟨[{ tool := tool.name, action := describe tool.name args,
                  args_hash := hashArgs args, success := true,
                  timestamp := now, duration := dur }],
          by simp [execute, hv, hc, runCall], by simp⟩
      | timeout => exact ⟨[], by simp [execute, hv, hc, runCall], by simp⟩
      | err m => exact ⟨[], by simp [execute, hv, hc, runCall], by simp⟩

/-- Claim C2 witness: one more invocation on a six-record history appends
at most one record after the untouched six. -/
theorem c2_witness :
    ∃ tail,
      (execDemo (execHistIter 6) ConfirmResp.yes (CallOutcome.ok "r")).2.2 =
        execHistIter 6 ++ tail ∧ tail.length ≤ 1 := by
  exact c2_history_append_only openPolicy "/home/user" [] demoDescribe
    demoSummarize demoHash demoPrompt (execHistIter 6) statusTool [] none
    false ConfirmResp.yes (CallOutcome.ok "r") 0 1

/-- Claim C10: `get_recent_executions 0` on a non-empty history returns the
whole history; a positive limit returns the final
`min limit length` records, in order, as a suffix of the history. -/
theorem c10_recent_slice (hist : List ExecutionRecord) (limit : Nat) :
    (hist ≠ [] → get_recent_executions hist 0 = hist) ∧
    (0 < limit →
      get_recent_executions hist limit =
        hist.drop (hist.length - limit) ∧
      (get_recent_executions hist limit).length = min limit hist.length ∧
      get_recent_executions hist limit <:+ hist) := by
  constructor
  · intro h
    have he : hist.isEmpty = false := by
      cases hist with
      | nil => exact absurd rfl h
      | cons a l => rfl
    simp [get_recent_executions, he]
  · intro hl
    have hl0 : limit ≠ 0 := Nat.pos_iff_ne_zero.mp hl
    cases hist with
    | nil => simp [get_recent_executions]
    | cons a l =>
      have he : (a :: l).isEmpty = false := rfl
      refine ⟨by simp [get_recent_executions, he, hl0], ?_, ?_⟩
      · simp only [get_recent_executions, he, hl0, if_false,
          Bool.false_eq_true]
        rw [List.length_drop]
        omega
      · simp only [get_recent_executions, he, hl0, if_false,
          Bool.false_eq_true]
        exact List.drop_suffix _ _

/-- Claim C10 witness: on a three-record history, limit 0 yields all three
records and limit 2 the final two. -/
theorem c10_witness :
    get_recent_executions (execHistIter 3) 0 = execHistIter 3 ∧
    (get_recent_executions (execHistIter 3) 2).length = 2 := by
  have h := c10_recent_slice (execHistIter 3) 2
  refine ⟨(c10_recent_slice (execHistIter 3) 0).1 (by decide), ?_⟩
  rw [(h.2 (by decide)).2.1]
  decide

/-- Claim C6: with an empty allow-list every path argument is accepted;
with a non-empty allow-list, a path contained in some allowed root passes,
every invocation whose present path-like string arguments all pass
validates, and whenever some present path-like argument is not contained
in any allowed root, validation fails with a message naming an offending
path. -/
theorem c6_allowed_roots
    (pol : Policy) (home : String) (cwd : List String) (args : Args) :
    (∀ p, validate_path pol home cwd p = true ↔
      (pol.allowed_roots = [] ∨ ∃ root ∈ pol.allowed_roots,
        resolveComps cwd (expandUser home root) <+:
          resolveComps cwd (expandUser home p))) ∧
    (pol.allowed_roots = [] → validate_arguments pol home cwd args = none) ∧
    ((∀ k ∈ path_keys, ∀ v, lookupStr args k = some v →
        validate_path pol home cwd v = true) →
      validate_arguments pol home cwd args = none) ∧
    ((∃ k ∈ path_keys, ∃ v, lookupStr args k = some v ∧
        validate_path pol home cwd v = false) →
      ∃ k ∈ path_keys, ∃ v, lookupStr args k = some v ∧
        validate_path pol home cwd v = false ∧
        validate_arguments pol home cwd args = some (pathErrMsg v)) := by
  have hchar : ∀ p, validate_path pol home cwd p = true ↔
      (pol.allowed_roots = [] ∨ ∃ root ∈ pol.allowed_roots,
        resolveComps cwd (expandUser home root) <+:
          resolveComps cwd (expandUser home p)) := by
    intro p
    unfold validate_path
    by_cases hroots : pol.allowed_roots.isEmpty = true
    · have : pol.allowed_roots = [] := List.isEmpty_iff.mp hroots
      simp [hroots, this]
    · have hne : ¬ pol.allowed_roots = [] := fun h =>
        hroots (by simp [h])
      simp only [hroots, Bool.false_eq_true, if_false, List.any_eq_true]
      constructor
      · rintro ⟨root, hr, hp⟩
        exact Or.inr ⟨root, hr, List.isPrefixOf_iff_prefix.mp hp⟩
      · rintro (h | ⟨root, hr, hp⟩)
        · exact absurd h hne
        · exact ⟨root, hr, List.isPrefixOf_iff_prefix.mpr hp⟩
  refine ⟨hchar, ?_, ?_, ?_⟩
  · intro hroots
    apply validateKeys_none
    intro k _ v _
    rw [hchar v]
    exact Or.inl hroots
  · intro hall
    exact validateKeys_none pol home cwd args path_keys hall
  · intro hex
    exact validateKeys_some pol home cwd args path_keys hex

/-- Claim C6 witness: under the allow-list `/home/user/docs`, the argument
`path=/etc/passwd` fails validation with a message naming it, while
`path=/home/user/docs/a.txt` passes. -/
theorem c6_witness :
    validate_arguments demoPolicy "/home/user" []
      [("path", ArgVal.str "/home/user/docs/a.txt")] = none ∧
    (∃ k ∈ path_keys, ∃ v,
      lookupStr [("path", ArgVal.str "/etc/passwd")] k = some v ∧
      validate_path demoPolicy "/home/user" [] v = false ∧
      validate_arguments demoPolicy "/home/user" []
        [("path", ArgVal.str "/etc/passwd")] = some (pathErrMsg v)) := by
  constructor
  · apply (c6_allowed_roots demoPolicy "/home/user" []
      [("path", ArgVal.str "/home/user/docs/a.txt")]).2.2.1
    intro k hk v hl
    simp only [path_keys, List.mem_cons, List.not_mem_nil, or_false] at hk
    rcases hk with rfl | rfl | rfl | rfl | rfl | rfl | rfl
    · have hv : some "/home/user/docs/a.txt" = some v := hl
      injection hv with hv
      subst hv
      decide
    all_goals
      exact Option.noConfusion (show (none : Option String) = some v from hl)
  · exact (c6_allowed_roots demoPolicy "/home/user" []
      [("path", ArgVal.str "/etc/passwd")]).2.2.2
      ⟨"path", by decide, "/etc/passwd", by decide, by decide⟩

/-- Claim C7, counterexample: with a two-tool catalog and `maxResults = 2`,
`find_tools battery` returns only the single scoring tool — the zero-score
tool is omitted entirely instead of being ranked after the scoring one, so
the function does not return the top `maxResults` tools. -/
theorem c7_counterexample :
    find_tools [notesTool, batteryTool] "battery" 2 = [batteryTool] ∧
    notesTool ∉ find_tools [notesTool, batteryTool] "battery" 2 ∧
    (find_tools [notesTool, batteryTool] "battery" 2).length ≠ 2 := by
  refine ⟨by decide, by decide, by decide⟩

/-- Claim C7 (amended): `find_tools` returns at most `maxResults` tools,
each drawn from the catalog with at least one query-token occurrence
(tools containing no token never appear), ordered by descending score with
ties broken by ascending tool name. -/
theorem c7_find_tools_ranking
    (tools : List ToolSpec) (query : String) (maxR : Nat) :
    (find_tools tools query maxR).length ≤ maxR ∧
    (∀ t ∈ find_tools tools query maxR,
      t ∈ tools ∧ 0 < toolScore (tokenize query) t) ∧
    (find_tools tools query maxR).Pairwise (fun t u =>
      toolScore (tokenize query) u < toolScore (tokenize query) t ∨
      (toolScore (tokenize query) t = toolScore (tokenize query) u ∧
        t.name ≤ u.name)) := by
  have hmemL : ∀ p ∈ (tools.map
      (fun t => (toolScore (tokenize query) t, t))).filter
        (fun p => decide (0 < p.1)),
      p.1 = toolScore (tokenize query) p.2 ∧ 0 < p.1 ∧ p.2 ∈ tools := by
    intro p hp
    rcases List.mem_filter.mp hp with ⟨hmem, hpos⟩
    rcases List.mem_map.mp hmem with ⟨t, ht, rfl⟩
    exact ⟨rfl, by simpa using hpos, ht⟩
  have hmemTake : ∀ p ∈ ((stableSort keyLe ((tools.map
      (fun t => (toolScore (tokenize query) t, t))).filter
        (fun p => decide (0 < p.1)))).take maxR),
      p.1 = toolScore (tokenize query) p.2 ∧ 0 < p.1 ∧ p.2 ∈ tools := by
    intro p hp
    exact hmemL p ((mem_stableSort _ _ _).mp (List.take_subset _ _ hp))
  refine ⟨?_, ?_, ?_⟩
  · simp only [find_tools, List.length_map, List.length_take]
    exact min_le_left _ _
  · intro t ht
    simp only [find_tools, List.mem_map] at ht
    obtain ⟨p, hp, rfl⟩ := ht
    obtain ⟨_, hpos, hmem⟩ := hmemTake p hp
    exact ⟨hmem, by omega⟩
  · simp only [find_tools]
    rw [List.pairwise_map]
    have hsorted := pairwise_stableSort keyLe keyLe_total keyLe_trans
      ((tools.map (fun t => (toolScore (tokenize query) t, t))).filter
        (fun p => decide (0 < p.1)))
    have htake := List.Pairwise.sublist (List.take_sublist maxR _) hsorted
    refine List.Pairwise.imp_of_mem ?_ htake
    intro p q hp hq hle
    obtain ⟨hp1, _, _⟩ := hmemTake p hp
    obtain ⟨hq1, _, _⟩ := hmemTake q hq
    rcases (keyLe_iff p q).mp hle with h | ⟨h, hn⟩
    · exact Or.inl (by rw [← hp1, ← hq1]; exact h)
    · exact Or.inr ⟨by rw [← hp1, ← hq1]; exact h, hn⟩

/-- Claim C7 witness: the scoring tool is returned and indeed scores. -/
theorem c7_witness :
    batteryTool ∈ find_tools [notesTool, batteryTool] "battery" 5 ∧
    0 < toolScore (tokenize "battery") batteryTool := by
  have h := (c7_find_tools_ranking [notesTool, batteryTool] "battery" 5).2.1
    batteryTool (by decide)
  exact ⟨by decide, h.2⟩

/-- Claim C8: after a discovery pass the surviving backends are exactly the
previously connected ones whose `tools/list` succeeded; every catalog entry
belongs to such a backend; a backend whose discovery succeeded keeps all
its tools; and after `start()` no catalog entry references a backend that
failed to connect or whose discovery failed. -/
theorem c8_catalog_excludes_failed
    (connectOk : String → Bool) (keywords : List String)
    (disc : String → Option (List RawTool)) (cfg clients : List String) :
    (∀ t ∈ (refresh_tools keywords disc clients).2,
      t.server_id ∈ (refresh_tools keywords disc clients).1 ∧
      disc t.server_id ≠ none) ∧
    (∀ sid, sid ∈ (refresh_tools keywords disc clients).1 ↔
      sid ∈ clients ∧ disc sid ≠ none) ∧
    (∀ sid raws, sid ∈ clients → disc sid = some raws →
      ∀ r ∈ raws,
        mkToolSpec keywords sid r ∈ (refresh_tools keywords disc clients).2) ∧
    (∀ t ∈ (start_router connectOk keywords disc cfg).2,
      connectOk t.server_id = true ∧ t.server_id ∈ cfg ∧
      disc t.server_id ≠ none) := by
  refine ⟨?_, ?_, ?_, ?_⟩
  · intro t ht
    obtain ⟨h₁, raws, hd, _⟩ := refresh_tools_sound keywords disc clients t ht
    exact ⟨h₁, by simp [hd]⟩
  · intro sid
    exact refresh_clients_mem keywords disc clients sid
  · intro sid raws hmem hd
    exact refresh_tools_complete keywords disc clients sid raws hmem hd
  · intro t ht
    obtain ⟨h₁, raws, hd, _⟩ :=
      refresh_tools_sound keywords disc (cfg.foldl (connect_server connectOk) []) t ht
    obtain ⟨hconn, _⟩ :=
      (refresh_clients_mem keywords disc _ t.server_id).mp h₁
    rcases (mem_connect_foldl connectOk cfg [] t.server_id).mp hconn with
      h | ⟨hcfg, hok⟩
    · simp at h
    · exact ⟨hok, hcfg, by simp [hd]⟩

/-- Configured connection outcomes of the discovery example: backend `c`
fails to connect. -/
def demoConnectOk : String → Bool := fun sid => !(sid == "c")

/-- A discovery entry of backend `a`. -/
def demoRaw : RawTool := { name := "get_info", description := "read info" }

/-- Discovery outcomes of the example: `a` returns one tool, `b` (and
everything else) fails `tools/list`. -/
def demoDisc : String → Option (List RawTool) :=
  fun sid => if sid = "a" then some [demoRaw] else none

/-- Claim C8 witness: in the example, backend `a`'s tool is in the rebuilt
catalog and references a connected backend with successful discovery. -/
theorem c8_witness :
    mkToolSpec [] "a" demoRaw ∈
      (start_router demoConnectOk [] demoDisc ["a", "b", "c"]).2 ∧
    demoConnectOk "a" = true ∧ demoDisc "a" ≠ none := by
  have h := (c8_catalog_excludes_failed demoConnectOk [] demoDisc
    ["a", "b", "c"] []).2.2.2 (mkToolSpec [] "a" demoRaw) (by decide)
  exact ⟨by decide, h.1, h.2.2⟩
